import Mathlib

/-!
Verification of the `operator-docker` configuration transformer
(`cmd/operator-docker/cmd.go`).

The Go program works on generic JSON trees (`map[string]any`).  We embed
those as an inductive `JSON` type, with Go maps represented as association
lists with in-place update semantics (`goSet` replaces an existing key,
otherwise appends); Go map deletion is `goDelete`, and indexing a missing
key yields the zero value `JSON.null`, matching Go's `nil` interface.

Go's three-way outcome (normal return, returned `error`, runtime panic
from a failed type assertion) is embedded as `GoResult`.

The service registry (`octoconfig.Repo`, an external collaborator parsed
from the `repos` key before `prepareConfig` strips it) is taken in its
already-parsed form, as the spec describes it: a map from service name to
a record with an optional Docker reference.
-/

namespace OperatorDocker

/-- JSON-like dynamic values, the embedding of Go's `any`. -/
inductive JSON where
  | null : JSON
  | bool (b : Bool) : JSON
  | num (n : Int) : JSON
  | str (s : String) : JSON
  | arr (elems : List JSON) : JSON
  | obj (fields : List (String × JSON)) : JSON
deriving Repr

/-- A Go `map[string]any`, as an association list. -/
abbrev Obj := List (String × JSON)

/-- Outcome of a Go computation: normal value, returned error, or panic
from a failed type assertion. -/
inductive GoResult (α : Type) where
  | ok (val : α) : GoResult α
  | err (msg : String) : GoResult α
  | crash (msg : String) : GoResult α
deriving Repr

def GoResult.isOk : GoResult α → Bool
  | .ok _ => true
  | _ => false

def GoResult.isErr : GoResult α → Bool
  | .err _ => true
  | _ => false

def GoResult.isCrash : GoResult α → Bool
  | .crash _ => true
  | _ => false

/-- Go map indexing: `m[k]`, yielding the `nil` interface (`JSON.null`)
when the key is absent. -/
def goGet : Obj → String → JSON
  | [], _ => JSON.null
  | kv :: t, k => if kv.1 = k then kv.2 else goGet t k

/-- Go `delete(m, k)`. -/
def goDelete : Obj → String → Obj
  | [], _ => []
  | kv :: t, k => if kv.1 = k then goDelete t k else kv :: goDelete t k

/-- Whether key `k` is present in the map. -/
def hasKey : Obj → String → Bool
  | [], _ => false
  | kv :: t, k => if kv.1 = k then true else hasKey t k

/-- Go map assignment `m[k] = v`: replaces an existing entry in place,
otherwise appends a new one. -/
def goSet (m : Obj) (k : String) (v : JSON) : Obj :=
  if hasKey m k then m.map (fun kv => if kv.1 = k then (k, v) else kv)
  else m ++ [(k, v)]

/-- `octoconfig.Docker`: image coordinates plus optional command override
(`[]string`, nil-able) and entrypoint override (`string`, empty means
unset). -/
structure DockerRef where
  registry : String
  image : String
  tag : String
  command : Option (List String)
  entrypoint : String
deriving Repr, DecidableEq

/-- A registry record for one service: an optional Docker reference
(`*Docker` in Go, nil-able). -/
structure ServiceRepo where
  docker : Option DockerRef
deriving Repr, DecidableEq

/-- `octoconfig.Repo`: the service registry, a map from service name to
`ServiceRepo`. -/
structure Repo where
  services : List (String × ServiceRepo)
deriving Repr, DecidableEq

/-- Association-list lookup for the registry map. -/
def lookupRepo : List (String × ServiceRepo) → String → Option ServiceRepo
  | [], _ => none
  | kv :: t, k => if kv.1 = k then some kv.2 else lookupRepo t k

/-- `repo.Services[name]` lookup. -/
def Repo.lookup (r : Repo) (name : String) : Option ServiceRepo :=
  lookupRepo r.services name

/-- The registry-resolution part of the per-service loop body: given a
Docker reference, set `image` to `<registry>/<image>:<tag>`, overwrite
`command` when the registry command is non-nil, and overwrite
`entrypoint` when the registry entrypoint is a non-empty string. -/
def applyDocker (d : DockerRef) (svc : Obj) : Obj :=
  let svc2 := goSet svc "image"
    (JSON.str (d.registry ++ "/" ++ d.image ++ ":" ++ d.tag))
  let svc3 :=
    match d.command with
    | some cmd => goSet svc2 "command" (JSON.arr (cmd.map JSON.str))
    | none => svc2
  if d.entrypoint = "" then svc3
  else goSet svc3 "entrypoint" (JSON.str d.entrypoint)

/-- The tail of the loop body once the `enabled` gate has passed: strip
`octocompose`, then either resolve via the registry or drop the service
(`none`). -/
def keepService (repo : Repo) (name : String) (svc : Obj) : Option JSON :=
  let svc1 := goDelete svc "octocompose"
  match repo.lookup name with
  | some sr =>
    match sr.docker with
    | some d => some (JSON.obj (applyDocker d svc1))
    | none => none
  | none => none

/-- One iteration of `prepareConfig`'s loop over `services`:
`services[name].(map[string]any)` panics on a non-map value; a non-nil
`enabled` is asserted to `bool` (panicking otherwise) and an explicit
`false` drops the service; otherwise the service is kept or dropped by
the registry lookup. -/
def processService (repo : Repo) (name : String) (v : JSON) :
    GoResult (Option JSON) :=
  match v with
  | JSON.obj svc =>
    match goGet svc "enabled" with
    | JSON.null => GoResult.ok (keepService repo name svc)
    | JSON.bool b =>
      if b then GoResult.ok (keepService repo name svc)
      else GoResult.ok none
    | _ => GoResult.crash "interface conversion: interface is not bool"
  | _ => GoResult.crash "interface conversion: interface is not a map"

/-- The whole loop over the `services` map, keeping the surviving
entries. -/
def processServices (repo : Repo) : Obj → GoResult Obj
  | [] => GoResult.ok []
  | (name, v) :: rest =>
    match processService repo name v with
    | GoResult.ok none => processServices repo rest
    | GoResult.ok (some v2) =>
      match processServices repo rest with
      | GoResult.ok out => GoResult.ok ((name, v2) :: out)
      | GoResult.err m => GoResult.err m
      | GoResult.crash m => GoResult.crash m
    | GoResult.err m => GoResult.err m
    | GoResult.crash m => GoResult.crash m

/-- Deletion of the control-plane top-level keys `configs`, `octoctl`,
`repos`. -/
def stripTop (data : Obj) : Obj :=
  goDelete (goDelete (goDelete data "configs") "octoctl") "repos"

/-- `prepareConfig`: strip control-plane keys, require `services` to be a
map (returned error otherwise), then run the per-service loop.  The
registry is the already-parsed form of the input's `repos` key. -/
def prepareConfig (repo : Repo) (data : Obj) : GoResult Obj :=
  let d1 := stripTop data
  match goGet d1 "services" with
  | JSON.obj svcs =>
    match processServices repo svcs with
    | GoResult.ok svcs2 => GoResult.ok (goSet d1 "services" (JSON.obj svcs2))
    | GoResult.err m => GoResult.err m
    | GoResult.crash m => GoResult.crash m
  | _ => GoResult.err "services not found"

/-- The compose command defaulted when no `octoctl.command` override
parses. -/
def defaultComposeCommand : List String := ["docker", "compose"]

/-- What `beforeConfig` threads into the context: the transformed
document, the compose command vector, and the project identifier. -/
structure BeforeResult where
  doc : Obj
  composeCommand : List String
  projectID : String
deriving Repr

/-- `beforeConfig`'s data flow after reading the configuration:
`configData["name"].(string)` (an unchecked assertion: panics when the
key is absent, null, or not a string), the optional `octoctl.command`
override (already parsed, an external collaborator), then
`prepareConfig`. -/
def beforeConfig (repo : Repo) (cmdOverride : Option (List String))
    (data : Obj) : GoResult BeforeResult :=
  match goGet data "name" with
  | JSON.str projectID =>
    let composeCommand := cmdOverride.getD defaultComposeCommand
    match prepareConfig repo data with
    | GoResult.ok doc => GoResult.ok ⟨doc, composeCommand, projectID⟩
    | GoResult.err m => GoResult.err m
    | GoResult.crash m => GoResult.crash m
  | _ => GoResult.crash "interface conversion: interface is not string"

/-- `runCompose`: the final argument list handed to the external process,
built by appending `-f <path>` and then the sub-command arguments to the
compose command vector. -/
def runComposeArgs (composeCommand : List String) (composeFilePath : String)
    (args : List String) : List String :=
  let args2 := composeCommand ++ ["-f", composeFilePath]
  args2 ++ args

/-- The `start` action's sub-command arguments. -/
def startArgs (dryRun : Bool) : List String :=
  if dryRun then ["up", "-d", "--dry-run"] else ["up", "-d"]

/-- `slices.Index(argv, sep)`: the index of the first occurrence, as an
option. -/
def firstIndexOf (sep : String) : List String → Option Nat
  | [] => none
  | a :: t => if a = sep then some 0 else (firstIndexOf sep t).map (· + 1)

/-- The `compose` action's extra arguments: everything after the first
literal `--` in the invocation arguments, and `["compose"]` when no `--`
is present (`slices.Index` returns the first index or -1). -/
def composeExtraArgs (argv : List String) : List String :=
  match firstIndexOf "--" argv with
  | some idx => argv.drop (idx + 1)
  | none => ["compose"]

/-- The full argument list dispatched by the `compose` sub-command. -/
def composeDispatch (composeCommand : List String) (composeFilePath : String)
    (argv : List String) : List String :=
  runComposeArgs composeCommand composeFilePath (composeExtraArgs argv)

/-- Well-typedness of one `services` entry value: the loop body's two
type assertions succeed exactly when the value is a map and its
`enabled` entry (Go `nil` for absent or JSON null) is nil or a bool. -/
def svcWellTyped : JSON → Bool
  | JSON.obj svc =>
    match goGet svc "enabled" with
    | JSON.null => true
    | JSON.bool _ => true
    | _ => false
  | _ => false

/-- The per-entry outcome as an optional output entry (key preserved),
defined for entries whose processing returns normally. -/
def stepService (repo : Repo) (kv : String × JSON) : Option (String × JSON) :=
  match processService repo kv.1 kv.2 with
  | GoResult.ok (some v2) => some (kv.1, v2)
  | _ => none

/-- The Docker reference a service name resolves to, when its registry
entry exists and carries one. -/
def resolveDocker (repo : Repo) (name : String) : Option DockerRef :=
  match repo.lookup name with
  | some sr => sr.docker
  | none => none

/-! ### Concrete scenarios

`demoRepo`/`demoData` is the spec's worked example: service `web`,
registry entry `reg.io`/`app`:`1.0`.  `cexRepo`/`cexData` has a registry
entry whose command is a present-but-empty list and a service that
already carries a `command` value.  `nullEnabledData` has an `enabled`
key holding JSON null. -/

def demoRepo : Repo :=
  ⟨[("web", ⟨some ⟨"reg.io", "app", "1.0", none, ""⟩⟩)]⟩

def demoData : Obj :=
  [("name", JSON.str "demo"),
   ("services", JSON.obj [("web", JSON.obj [("enabled", JSON.bool true)])]),
   ("repos", JSON.obj [("services", JSON.obj [("web", JSON.obj
     [("docker", JSON.obj [("registry", JSON.str "reg.io"),
       ("image", JSON.str "app"), ("tag", JSON.str "1.0")])])])])]

def demoOut : Obj :=
  [("name", JSON.str "demo"),
   ("services", JSON.obj [("web", JSON.obj
     [("enabled", JSON.bool true), ("image", JSON.str "reg.io/app:1.0")])])]

def cexRepo : Repo :=
  ⟨[("web", ⟨some ⟨"r", "i", "t", some [], ""⟩⟩)]⟩

def cexData : Obj :=
  [("services", JSON.obj [("web", JSON.obj [("command", JSON.str "orig")])])]

def nullEnabledData : Obj :=
  [("services", JSON.obj [("web", JSON.obj [("enabled", JSON.null)])])]

/-! ## Basic lemmas about the Go-map operations -/

theorem goGet_nil (k : String) : goGet [] k = JSON.null := rfl

theorem goGet_cons (a : String × JSON) (t : Obj) (k : String) :
    goGet (a :: t) k = if a.1 = k then a.2 else goGet t k := rfl

theorem hasKey_cons (a : String × JSON) (t : Obj) (k : String) :
    hasKey (a :: t) k = if a.1 = k then true else hasKey t k := rfl

theorem goDelete_cons (a : String × JSON) (t : Obj) (k : String) :
    goDelete (a :: t) k =
      if a.1 = k then goDelete t k else a :: goDelete t k := rfl

theorem hasKey_goDelete_self (m : Obj) (k : String) :
    hasKey (goDelete m k) k = false := by
  induction m with
  | nil => rfl
  | cons a t ih =>
    rw [goDelete_cons]
    by_cases h : a.1 = k
    · rw [if_pos h, ih]
    · rw [if_neg h, hasKey_cons, if_neg h, ih]

theorem hasKey_goDelete_ne (m : Obj) (k k' : String) (h : k' ≠ k) :
    hasKey (goDelete m k) k' = hasKey m k' := by
  induction m with
  | nil => rfl
  | cons a t ih =>
    rw [goDelete_cons]
    by_cases ha : a.1 = k
    · have hne : a.1 ≠ k' := fun hc => h (hc ▸ ha)
      rw [if_pos ha, ih, hasKey_cons, if_neg hne]
    · rw [if_neg ha, hasKey_cons, hasKey_cons, ih]

theorem goGet_goDelete_ne (m : Obj) (k k' : String) (h : k' ≠ k) :
    goGet (goDelete m k) k' = goGet m k' := by
  induction m with
  | nil => rfl
  | cons a t ih =>
    rw [goDelete_cons]
    by_cases ha : a.1 = k
    · have hne : a.1 ≠ k' := fun hc => h (hc ▸ ha)
      rw [if_pos ha, ih, goGet_cons, if_neg hne]
    · rw [if_neg ha, goGet_cons, goGet_cons, ih]

theorem goDelete_of_not_hasKey (m : Obj) (k : String)
    (h : hasKey m k = false) : goDelete m k = m := by
  induction m with
  | nil => rfl
  | cons a t ih =>
    rw [hasKey_cons] at h
    by_cases ha : a.1 = k
    · rw [if_pos ha] at h
      exact absurd h (by simp)
    · rw [if_neg ha] at h
      rw [goDelete_cons, if_neg ha, ih h]

theorem goGet_append (m1 m2 : Obj) (k : String) :
    goGet (m1 ++ m2) k = if hasKey m1 k then goGet m1 k else goGet m2 k := by
  induction m1 with
  | nil => rfl
  | cons a t ih =>
    by_cases h : a.1 = k
    · simp [goGet_cons, hasKey_cons, h]
    · simp [goGet_cons, hasKey_cons, h, ih]

theorem hasKey_append (m1 m2 : Obj) (k : String) :
    hasKey (m1 ++ m2) k = (hasKey m1 k || hasKey m2 k) := by
  induction m1 with
  | nil => rfl
  | cons a t ih =>
    by_cases h : a.1 = k
    · simp [hasKey_cons, h]
    · simp [hasKey_cons, h, ih]

theorem goGet_map_set (m : Obj) (k : String) (v : JSON) :
    goGet (m.map (fun kv => if kv.1 = k then (k, v) else kv)) k =
      if hasKey m k then v else JSON.null := by
  induction m with
  | nil => rfl
  | cons a t ih =>
    by_cases h : a.1 = k
    · simp [goGet_cons, hasKey_cons, h]
    · simp [goGet_cons, hasKey_cons, h, ih]

theorem hasKey_map_set (m : Obj) (k : String) (v : JSON) (k' : String) :
    hasKey (m.map (fun kv => if kv.1 = k then (k, v) else kv)) k' =
      hasKey m k' := by
  induction m with
  | nil => rfl
  | cons a t ih =>
    by_cases h : a.1 = k
    · by_cases h2 : k = k'
      · simp [hasKey_cons, h, h2, ih]
      · have : a.1 ≠ k' := fun hc => h2 (h ▸ hc)
        simp [hasKey_cons, h, h2, this, ih]
    · simp [hasKey_cons, h, ih]

theorem goGet_map_set_ne (m : Obj) (k k' : String) (v : JSON) (h : k' ≠ k) :
    goGet (m.map (fun kv => if kv.1 = k then (k, v) else kv)) k' =
      goGet m k' := by
  induction m with
  | nil => rfl
  | cons a t ih =>
    by_cases ha : a.1 = k
    · have hne : a.1 ≠ k' := fun hc => h (hc ▸ ha)
      simp [goGet_cons, ha, hne, Ne.symm h, ih]
    · simp [goGet_cons, ha, ih]

theorem goGet_goSet_self (m : Obj) (k : String) (v : JSON) :
    goGet (goSet m k v) k = v := by
  unfold goSet
  by_cases hk : hasKey m k
  · rw [if_pos hk, goGet_map_set, if_pos hk]
  · rw [if_neg hk, goGet_append, if_neg hk, goGet_cons, if_pos rfl]

theorem goGet_goSet_ne (m : Obj) (k k' : String) (v : JSON) (h : k' ≠ k) :
    goGet (goSet m k v) k' = goGet m k' := by
  unfold goSet
  by_cases hk : hasKey m k
  · rw [if_pos hk, goGet_map_set_ne m k k' v h]
  · rw [if_neg hk, goGet_append, goGet_cons, if_neg (Ne.symm h), goGet_nil]
    by_cases hk' : hasKey m k'
    · rw [if_pos hk']
    · rw [if_neg hk']
      clear hk
      induction m with
      | nil => rfl
      | cons a t ih =>
        rw [hasKey_cons] at hk'
        by_cases ha : a.1 = k'
        · rw [if_pos ha] at hk'
          exact absurd hk' (by simp)
        · rw [if_neg ha] at hk'
          rw [goGet_cons, if_neg ha, ih hk']

theorem hasKey_goSet (m : Obj) (k : String) (v : JSON) (k' : String) :
    hasKey (goSet m k v) k' = (hasKey m k' || (k' = k)) := by
  unfold goSet
  by_cases hk : hasKey m k
  · rw [if_pos hk, hasKey_map_set]
    by_cases he : k' = k
    · subst he
      rw [hk]
      simp
    · simp [he]
  · rw [if_neg hk, hasKey_append, hasKey_cons]
    by_cases he : k' = k
    · simp [he]
    · simp [he, Ne.symm he, hasKey]

theorem hasKey_goSet_self (m : Obj) (k : String) (v : JSON) :
    hasKey (goSet m k v) k = true := by
  rw [hasKey_goSet]
  simp

theorem hasKey_of_mem (m : Obj) (p : String × JSON) (h : p ∈ m) :
    hasKey m p.1 = true := by
  induction m with
  | nil => exact absurd h (List.not_mem_nil p)
  | cons a t ih =>
    rw [hasKey_cons]
    rcases List.mem_cons.mp h with h1 | h1
    · rw [if_pos (by rw [h1])]
    · by_cases ha : a.1 = p.1
      · rw [if_pos ha]
      · rw [if_neg ha, ih h1]

theorem mem_goSet_elim (m : Obj) (k : String) (v : JSON) (p : String × JSON)
    (h : p ∈ goSet m k v) : p = (k, v) ∨ p ∈ m := by
  unfold goSet at h
  by_cases hk : hasKey m k
  · rw [if_pos hk] at h
    rcases List.mem_map.mp h with ⟨q, hq, hfq⟩
    by_cases hqk : q.1 = k
    · rw [if_pos hqk] at hfq
      exact Or.inl hfq.symm
    · rw [if_neg hqk] at hfq
      exact Or.inr (hfq ▸ hq)
  · rw [if_neg hk] at h
    rcases List.mem_append.mp h with h1 | h1
    · exact Or.inr h1
    · simp only [List.mem_singleton] at h1
      exact Or.inl h1

theorem mem_goSet_key (m : Obj) (k : String) (v : JSON) (p : String × JSON)
    (hp : p ∈ goSet m k v) (hk : p.1 = k) : p.2 = v := by
  unfold goSet at hp
  by_cases hhk : hasKey m k
  · rw [if_pos hhk] at hp
    rcases List.mem_map.mp hp with ⟨q, _, hfq⟩
    by_cases hqk : q.1 = k
    · rw [if_pos hqk] at hfq
      rw [← hfq]
    · rw [if_neg hqk] at hfq
      rw [← hfq] at hk
      exact absurd hk hqk
  · rw [if_neg hhk] at hp
    rcases List.mem_append.mp hp with h1 | h1
    · have := hasKey_of_mem m p h1
      rw [hk] at this
      rw [this] at hhk
      exact absurd rfl hhk
    · simp only [List.mem_singleton] at h1
      rw [h1]

theorem goSet_self_of_all (m : Obj) (k : String) (v : JSON)
    (hk : hasKey m k = true) (hall : ∀ p ∈ m, p.1 = k → p.2 = v) :
    goSet m k v = m := by
  unfold goSet
  rw [if_pos hk]
  have hid : ∀ p ∈ m, (fun kv : String × JSON =>
      if kv.1 = k then (k, v) else kv) p = id p := by
    intro p hp
    by_cases hpk : p.1 = k
    · have h2 : p.2 = v := hall p hp hpk
      simp only [if_pos hpk, id]
      exact (Prod.ext hpk h2).symm
    · simp only [if_neg hpk, id]
  rw [List.map_congr_left hid, List.map_id]

theorem goSet_goSet_self (m : Obj) (k : String) (v : JSON) :
    goSet (goSet m k v) k v = goSet m k v :=
  goSet_self_of_all _ _ _ (hasKey_goSet_self m k v)
    (fun p hp => mem_goSet_key m k v p hp)

theorem mem_goDelete (m : Obj) (k : String) (p : String × JSON)
    (h : p ∈ goDelete m k) : p ∈ m := by
  induction m with
  | nil => exact absurd h (List.not_mem_nil p)
  | cons a t ih =>
    rw [goDelete_cons] at h
    by_cases ha : a.1 = k
    · rw [if_pos ha] at h
      exact List.mem_cons_of_mem a (ih h)
    · rw [if_neg ha] at h
      rcases List.mem_cons.mp h with h1 | h1
      · exact h1 ▸ List.mem_cons_self a t
      · exact List.mem_cons_of_mem a (ih h1)

/-! ## Lemmas about the per-service loop -/

theorem GoResult.isOk_iff {α : Type} (x : GoResult α) :
    x.isOk = true ↔ ∃ v, x = GoResult.ok v := by
  cases x <;> simp [GoResult.isOk]

theorem processService_isOk (repo : Repo) (name : String) (v : JSON) :
    (processService repo name v).isOk = svcWellTyped v := by
  cases v with
  | obj svc =>
    cases hge : goGet svc "enabled" with
    | bool b =>
      cases b <;> simp [processService, svcWellTyped, hge, GoResult.isOk]
    | null => simp [processService, svcWellTyped, hge, GoResult.isOk]
    | num n => simp [processService, svcWellTyped, hge, GoResult.isOk]
    | str s => simp [processService, svcWellTyped, hge, GoResult.isOk]
    | arr xs => simp [processService, svcWellTyped, hge, GoResult.isOk]
    | obj kvs => simp [processService, svcWellTyped, hge, GoResult.isOk]
  | null => rfl
  | bool b => rfl
  | num n => rfl
  | str s => rfl
  | arr xs => rfl

theorem processService_isErr (repo : Repo) (name : String) (v : JSON) :
    (processService repo name v).isErr = false := by
  cases v with
  | obj svc =>
    cases hge : goGet svc "enabled" with
    | bool b =>
      cases b <;> simp [processService, hge, GoResult.isErr]
    | null => simp [processService, hge, GoResult.isErr]
    | num n => simp [processService, hge, GoResult.isErr]
    | str s => simp [processService, hge, GoResult.isErr]
    | arr xs => simp [processService, hge, GoResult.isErr]
    | obj kvs => simp [processService, hge, GoResult.isErr]
  | null => rfl
  | bool b => rfl
  | num n => rfl
  | str s => rfl
  | arr xs => rfl

theorem processServices_ok_of_wellTyped (repo : Repo) (svcs : Obj)
    (h : ∀ kv ∈ svcs, svcWellTyped kv.2 = true) :
    processServices repo svcs =
      GoResult.ok (svcs.filterMap (stepService repo)) := by
  induction svcs with
  | nil => rfl
  | cons a t ih =>
    have ha : svcWellTyped a.2 = true := h a (List.mem_cons_self a t)
    have hok : (processService repo a.1 a.2).isOk = true := by
      rw [processService_isOk, ha]
    rcases (GoResult.isOk_iff _).mp hok with ⟨r, hr⟩
    have iht := ih (fun kv hkv => h kv (List.mem_cons_of_mem a hkv))
    cases r with
    | none =>
      have hstep : stepService repo a = none := by
        simp [stepService, hr]
      rw [show a = (a.1, a.2) from rfl] at hr ⊢
      simp only [processServices, hr, List.filterMap_cons, hstep, iht]
    | some v2 =>
      have hstep : stepService repo a = some (a.1, v2) := by
        simp [stepService, hr]
      rw [show a = (a.1, a.2) from rfl] at hr ⊢
      simp only [processServices, hr, List.filterMap_cons, hstep, iht]

theorem processServices_ok_elim (repo : Repo) (svcs out : Obj)
    (h : processServices repo svcs = GoResult.ok out) :
    (∀ kv ∈ svcs, svcWellTyped kv.2 = true) ∧
      out = svcs.filterMap (stepService repo) := by
  induction svcs generalizing out with
  | nil =>
    simp only [processServices] at h
    cases h
    exact ⟨by intro kv hkv; exact absurd hkv (List.not_mem_nil kv), rfl⟩
  | cons a t ih =>
    rw [show a = (a.1, a.2) from rfl] at h
    cases hps : processService repo a.1 a.2 with
    | ok r =>
      have haw : svcWellTyped a.2 = true := by
        rw [← processService_isOk repo a.1 a.2, hps]
        rfl
      cases r with
      | none =>
        simp only [processServices, hps] at h
        rcases ih out h with ⟨h1, h2⟩
        refine ⟨?_, ?_⟩
        · intro kv hkv
          rcases List.mem_cons.mp hkv with hc | hc
          · rw [hc]; exact haw
          · exact h1 kv hc
        · have hstep : stepService repo a = none := by
            simp [stepService, hps]
          rw [List.filterMap_cons, hstep]
          exact h2
      | some v2 =>
        simp only [processServices, hps] at h
        cases hrest : processServices repo t with
        | ok out2 =>
          rw [hrest] at h
          cases h
          rcases ih out2 hrest with ⟨h1, h2⟩
          refine ⟨?_, ?_⟩
          · intro kv hkv
            rcases List.mem_cons.mp hkv with hc | hc
            · rw [hc]; exact haw
            · exact h1 kv hc
          · have hstep : stepService repo a = some (a.1, v2) := by
              simp [stepService, hps]
            rw [List.filterMap_cons, hstep, h2]
        | err m => rw [hrest] at h; cases h
        | crash m => rw [hrest] at h; cases h
    | err m =>
      simp only [processServices, hps] at h
      cases h
    | crash m =>
      simp only [processServices, hps] at h
      cases h

theorem processServices_isErr (repo : Repo) (svcs : Obj) :
    (processServices repo svcs).isErr = false := by
  induction svcs with
  | nil => rfl
  | cons a t ih =>
    rw [show a = (a.1, a.2) from rfl]
    cases hps : processService repo a.1 a.2 with
    | ok r =>
      cases r with
      | none => simpa [processServices, hps] using ih
      | some v2 =>
        cases hrest : processServices repo t with
        | ok out2 => simp [processServices, hps, hrest, GoResult.isErr]
        | err m => rw [hrest] at ih; exact absurd ih (by simp [GoResult.isErr])
        | crash m => simp [processServices, hps, hrest, GoResult.isErr]
    | err m =>
      have := processService_isErr repo a.1 a.2
      rw [hps] at this
      exact absurd this (by simp [GoResult.isErr])
    | crash m => simp [processServices, hps, GoResult.isErr]

theorem processServices_crash_of_illTyped (repo : Repo) (svcs : Obj)
    (h : ∃ kv ∈ svcs, svcWellTyped kv.2 = false) :
    (processServices repo svcs).isCrash = true := by
  cases hres : processServices repo svcs with
  | ok out =>
    rcases h with ⟨kv, hkv, hw⟩
    have := (processServices_ok_elim repo svcs out hres).1 kv hkv
    rw [hw] at this
    cases this
  | err m =>
    have := processServices_isErr repo svcs
    rw [hres] at this
    exact absurd this (by simp [GoResult.isErr])
  | crash m => rfl

/-! ## Key lookup in the loop output -/

theorem stepService_key (repo : Repo) (kv p : String × JSON)
    (h : stepService repo kv = some p) : p.1 = kv.1 := by
  unfold stepService at h
  cases hps : processService repo kv.1 kv.2 with
  | ok r =>
    cases r with
    | none => rw [hps] at h; cases h
    | some v2 => rw [hps] at h; cases h; rfl
  | err m => rw [hps] at h; cases h
  | crash m => rw [hps] at h; cases h

theorem hasKey_iff_mem_keys (m : Obj) (k : String) :
    hasKey m k = true ↔ k ∈ m.map Prod.fst := by
  induction m with
  | nil => simp [hasKey]
  | cons a t ih =>
    by_cases h : a.1 = k
    · simp [hasKey_cons, h]
    · simp [hasKey_cons, h, ih, Ne.symm h]

theorem filterMap_step_not_hasKey (repo : Repo) (svcs : Obj) (k : String)
    (h : hasKey svcs k = false) :
    hasKey (svcs.filterMap (stepService repo)) k = false ∧
      goGet (svcs.filterMap (stepService repo)) k = JSON.null := by
  induction svcs with
  | nil => exact ⟨rfl, rfl⟩
  | cons a t ih =>
    rw [hasKey_cons] at h
    by_cases ha : a.1 = k
    · rw [if_pos ha] at h
      cases h
    · rw [if_neg ha] at h
      rcases ih h with ⟨ih1, ih2⟩
      rw [List.filterMap_cons]
      cases hstep : stepService repo a with
      | none => exact ⟨ih1, ih2⟩
      | some p =>
        have hpk : p.1 ≠ k := by
          rw [stepService_key repo a p hstep]
          exact ha
        constructor
        · rw [hasKey_cons, if_neg hpk]
          exact ih1
        · rw [goGet_cons, if_neg hpk]
          exact ih2

theorem filterMap_step_lookup (repo : Repo) (svcs : Obj) (k : String)
    (v : JSON) (hnd : (svcs.map Prod.fst).Nodup) (hm : (k, v) ∈ svcs) :
    hasKey (svcs.filterMap (stepService repo)) k =
        (stepService repo (k, v)).isSome ∧
      goGet (svcs.filterMap (stepService repo)) k =
        (match stepService repo (k, v) with
         | some p => p.2
         | none => JSON.null) := by
  induction svcs with
  | nil => exact absurd hm (List.not_mem_nil _)
  | cons a t ih =>
    rw [List.map_cons, List.nodup_cons] at hnd
    rcases hnd with ⟨ha1, hnd'⟩
    rcases List.mem_cons.mp hm with hc | hc
    · have hc' : a = (k, v) := hc.symm
      subst hc'
      have hkt : hasKey t k = false := by
        cases ht : hasKey t k
        · rfl
        · exact absurd ((hasKey_iff_mem_keys t k).mp ht) ha1
      rcases filterMap_step_not_hasKey repo t k hkt with ⟨ht1, ht2⟩
      rw [List.filterMap_cons]
      cases hstep : stepService repo (k, v) with
      | none => exact ⟨ht1, ht2⟩
      | some p =>
        have hpk : p.1 = k := stepService_key repo (k, v) p hstep
        exact ⟨by rw [hasKey_cons, if_pos hpk]; rfl,
          by rw [goGet_cons, if_pos hpk]⟩
    · have hk : a.1 ≠ k := by
        intro hc2
        exact ha1 (hc2 ▸ List.mem_map.mpr ⟨(k, v), hc, rfl⟩)
      rcases ih hnd' hc with ⟨ih1, ih2⟩
      rw [List.filterMap_cons]
      cases hstep : stepService repo a with
      | none => exact ⟨ih1, ih2⟩
      | some p =>
        have hpk : p.1 ≠ k := by
          rw [stepService_key repo a p hstep]
          exact hk
        constructor
        · rw [hasKey_cons, if_neg hpk]
          exact ih1
        · rw [goGet_cons, if_neg hpk]
          exact ih2

/-! ## Shape of a successful transform -/

theorem goGet_stripTop_services (data : Obj) :
    goGet (stripTop data) "services" = goGet data "services" := by
  unfold stripTop
  rw [goGet_goDelete_ne _ _ _ (by decide), goGet_goDelete_ne _ _ _ (by decide),
    goGet_goDelete_ne _ _ _ (by decide)]

theorem prepareConfig_ok_elim (repo : Repo) (data out : Obj)
    (h : prepareConfig repo data = GoResult.ok out) :
    ∃ svcs, goGet data "services" = JSON.obj svcs ∧
      (∀ kv ∈ svcs, svcWellTyped kv.2 = true) ∧
      out = goSet (stripTop data) "services"
        (JSON.obj (svcs.filterMap (stepService repo))) := by
  simp only [prepareConfig] at h
  rw [goGet_stripTop_services] at h
  split at h
  · rename_i svcs hsv
    split at h
    · rename_i svcs2 hps
      cases h
      rcases processServices_ok_elim repo svcs svcs2 hps with ⟨h1, h2⟩
      exact ⟨svcs, hsv, h1, by rw [h2]⟩
    · cases h
    · cases h
  · cases h

/-! ## Evaluation of the loop body -/

theorem stepService_enabled_pass (repo : Repo) (name : String) (svc : Obj)
    (hen : goGet svc "enabled" = JSON.null ∨
      goGet svc "enabled" = JSON.bool true) :
    stepService repo (name, JSON.obj svc) =
      (match resolveDocker repo name with
       | some d =>
         some (name, JSON.obj (applyDocker d (goDelete svc "octocompose")))
       | none => none) := by
  have hps : processService repo name (JSON.obj svc) =
      GoResult.ok (keepService repo name svc) := by
    rcases hen with h | h <;> simp [processService, h]
  unfold stepService
  rw [hps]
  unfold keepService resolveDocker
  cases hlk : repo.lookup name with
  | some sr =>
    obtain ⟨od⟩ := sr
    cases od <;> rfl
  | none => rfl

theorem stepService_disabled (repo : Repo) (name : String) (svc : Obj)
    (hen : goGet svc "enabled" = JSON.bool false) :
    stepService repo (name, JSON.obj svc) = none := by
  simp [stepService, processService, hen]

theorem goGet_applyDocker_image (d : DockerRef) (svc : Obj) :
    goGet (applyDocker d svc) "image" =
      JSON.str (d.registry ++ "/" ++ d.image ++ ":" ++ d.tag) := by
  unfold applyDocker
  cases hc : d.command with
  | some cmd =>
    by_cases he : d.entrypoint = ""
    · simp only [if_pos he]
      rw [goGet_goSet_ne _ _ _ _ (by decide), goGet_goSet_self]
    · simp only [if_neg he]
      rw [goGet_goSet_ne _ _ _ _ (by decide),
        goGet_goSet_ne _ _ _ _ (by decide), goGet_goSet_self]
  | none =>
    by_cases he : d.entrypoint = ""
    · simp only [if_pos he]
      rw [goGet_goSet_self]
    · simp only [if_neg he]
      rw [goGet_goSet_ne _ _ _ _ (by decide), goGet_goSet_self]

theorem goGet_applyDocker_command (d : DockerRef) (svc : Obj) :
    goGet (applyDocker d svc) "command" =
      (match d.command with
       | some c => JSON.arr (c.map JSON.str)
       | none => goGet svc "command") := by
  unfold applyDocker
  cases hc : d.command with
  | some cmd =>
    by_cases he : d.entrypoint = ""
    · simp only [if_pos he]
      rw [goGet_goSet_self]
    · simp only [if_neg he]
      rw [goGet_goSet_ne _ _ _ _ (by decide), goGet_goSet_self]
  | none =>
    by_cases he : d.entrypoint = ""
    · simp only [if_pos he]
      rw [goGet_goSet_ne _ _ _ _ (by decide)]
    · simp only [if_neg he]
      rw [goGet_goSet_ne _ _ _ _ (by decide),
        goGet_goSet_ne _ _ _ _ (by decide)]

theorem goGet_applyDocker_entrypoint (d : DockerRef) (svc : Obj) :
    goGet (applyDocker d svc) "entrypoint" =
      (if d.entrypoint = "" then goGet svc "entrypoint"
       else JSON.str d.entrypoint) := by
  unfold applyDocker
  cases hc : d.command with
  | some cmd =>
    by_cases he : d.entrypoint = ""
    · simp only [if_pos he]
      rw [goGet_goSet_ne _ _ _ _ (by decide),
        goGet_goSet_ne _ _ _ _ (by decide)]
    · simp only [if_neg he]
      rw [goGet_goSet_self]
  | none =>
    by_cases he : d.entrypoint = ""
    · simp only [if_pos he]
      rw [goGet_goSet_ne _ _ _ _ (by decide)]
    · simp only [if_neg he]
      rw [goGet_goSet_self]

theorem goGet_applyDocker_ne (d : DockerRef) (svc : Obj) (k : String)
    (h1 : k ≠ "image") (h2 : k ≠ "command") (h3 : k ≠ "entrypoint") :
    goGet (applyDocker d svc) k = goGet svc k := by
  unfold applyDocker
  cases hc : d.command with
  | some cmd =>
    by_cases he : d.entrypoint = ""
    · simp only [if_pos he]
      rw [goGet_goSet_ne _ _ _ _ h2, goGet_goSet_ne _ _ _ _ h1]
    · simp only [if_neg he]
      rw [goGet_goSet_ne _ _ _ _ h3, goGet_goSet_ne _ _ _ _ h2,
        goGet_goSet_ne _ _ _ _ h1]
  | none =>
    by_cases he : d.entrypoint = ""
    · simp only [if_pos he]
      rw [goGet_goSet_ne _ _ _ _ h1]
    · simp only [if_neg he]
      rw [goGet_goSet_ne _ _ _ _ h3, goGet_goSet_ne _ _ _ _ h1]

theorem hasKey_applyDocker_ne (d : DockerRef) (svc : Obj) (k : String)
    (h1 : k ≠ "image") (h2 : k ≠ "command") (h3 : k ≠ "entrypoint") :
    hasKey (applyDocker d svc) k = hasKey svc k := by
  unfold applyDocker
  cases hc : d.command with
  | some cmd =>
    by_cases he : d.entrypoint = ""
    · simp only [if_pos he]
      rw [hasKey_goSet, hasKey_goSet]
      simp [h1, h2]
    · simp only [if_neg he]
      rw [hasKey_goSet, hasKey_goSet, hasKey_goSet]
      simp [h1, h2, h3]
  | none =>
    by_cases he : d.entrypoint = ""
    · simp only [if_pos he]
      rw [hasKey_goSet]
      simp [h1]
    · simp only [if_neg he]
      rw [hasKey_goSet, hasKey_goSet]
      simp [h1, h3]

theorem hasKey_goSet_ne (m : Obj) (k k' : String) (v : JSON) (h : k' ≠ k) :
    hasKey (goSet m k v) k' = hasKey m k' := by
  rw [hasKey_goSet]
  simp [h]

theorem hasKey_stripTop_configs (data : Obj) :
    hasKey (stripTop data) "configs" = false := by
  unfold stripTop
  rw [hasKey_goDelete_ne _ _ _ (by decide), hasKey_goDelete_ne _ _ _ (by decide),
    hasKey_goDelete_self]

theorem hasKey_stripTop_octoctl (data : Obj) :
    hasKey (stripTop data) "octoctl" = false := by
  unfold stripTop
  rw [hasKey_goDelete_ne _ _ _ (by decide), hasKey_goDelete_self]

theorem hasKey_stripTop_repos (data : Obj) :
    hasKey (stripTop data) "repos" = false := by
  unfold stripTop
  rw [hasKey_goDelete_self]

theorem prepareConfig_eq_of_services (repo : Repo) (data svcs : Obj)
    (hsv : goGet data "services" = JSON.obj svcs) :
    prepareConfig repo data =
      (match processServices repo svcs with
       | GoResult.ok svcs2 =>
         GoResult.ok (goSet (stripTop data) "services" (JSON.obj svcs2))
       | GoResult.err m => GoResult.err m
       | GoResult.crash m => GoResult.crash m) := by
  simp only [prepareConfig]
  rw [goGet_stripTop_services, hsv]

theorem keepService_eq (repo : Repo) (name : String) (svc : Obj) :
    keepService repo name svc =
      (match resolveDocker repo name with
       | some d => some (JSON.obj (applyDocker d (goDelete svc "octocompose")))
       | none => none) := by
  unfold keepService resolveDocker
  cases hlk : repo.lookup name with
  | some sr =>
    obtain ⟨od⟩ := sr
    cases od <;> rfl
  | none => rfl

theorem stepService_some_elim (repo : Repo) (a p : String × JSON)
    (h : stepService repo a = some p) :
    ∃ svc d, a.2 = JSON.obj svc ∧ resolveDocker repo a.1 = some d ∧
      (goGet svc "enabled" = JSON.null ∨
        goGet svc "enabled" = JSON.bool true) ∧
      p = (a.1, JSON.obj (applyDocker d (goDelete svc "octocompose"))) := by
  obtain ⟨nm, av⟩ := a
  cases av with
  | obj svc =>
    have hen : goGet svc "enabled" = JSON.null ∨
        goGet svc "enabled" = JSON.bool true := by
      cases hge : goGet svc "enabled" with
      | null => exact Or.inl rfl
      | bool b =>
        cases b
        · rw [stepService_disabled repo nm svc hge] at h
          cases h
        · exact Or.inr rfl
      | num n =>
        simp [stepService, processService, hge] at h
      | str s =>
        simp [stepService, processService, hge] at h
      | arr xs =>
        simp [stepService, processService, hge] at h
      | obj kvs =>
        simp [stepService, processService, hge] at h
    rw [stepService_enabled_pass repo nm svc hen] at h
    cases hrd : resolveDocker repo nm with
    | some d =>
      rw [hrd] at h
      simp only [Option.some.injEq] at h
      exact ⟨svc, d, rfl, rfl, hen, h.symm⟩
    | none =>
      rw [hrd] at h
      cases h
  | null => simp [stepService, processService] at h
  | bool b => simp [stepService, processService] at h
  | num n => simp [stepService, processService] at h
  | str s => simp [stepService, processService] at h
  | arr xs => simp [stepService, processService] at h

theorem applyDocker_idem (d : DockerRef) (svc : Obj) :
    applyDocker d (applyDocker d svc) = applyDocker d svc := by
  obtain ⟨reg, im, tg, cmd, ent⟩ := d
  cases cmd with
  | some c =>
    by_cases he : ent = ""
    · have e : ∀ x : Obj, applyDocker ⟨reg, im, tg, some c, ent⟩ x =
          goSet (goSet x "image" (JSON.str (reg ++ "/" ++ im ++ ":" ++ tg)))
            "command" (JSON.arr (c.map JSON.str)) := by
        intro x
        simp only [applyDocker]
        rw [if_pos he]
      rw [e, e]
      set B := goSet (goSet svc "image"
          (JSON.str (reg ++ "/" ++ im ++ ":" ++ tg)))
        "command" (JSON.arr (c.map JSON.str)) with hB
      have hbi : hasKey B "image" = true := by
        rw [hB, hasKey_goSet_ne _ _ _ _ (by decide), hasKey_goSet_self]
      have hbia : ∀ p ∈ B, p.1 = "image" →
          p.2 = JSON.str (reg ++ "/" ++ im ++ ":" ++ tg) := by
        intro p hp hk
        rw [hB] at hp
        rcases mem_goSet_elim _ _ _ _ hp with h1 | h1
        · rw [h1] at hk
          simp at hk
        · exact mem_goSet_key _ _ _ _ h1 hk
      rw [goSet_self_of_all B "image" _ hbi hbia]
      have hbc : hasKey B "command" = true := by
        rw [hB]
        exact hasKey_goSet_self _ _ _
      have hbca : ∀ p ∈ B, p.1 = "command" →
          p.2 = JSON.arr (c.map JSON.str) := by
        intro p hp hk
        rw [hB] at hp
        exact mem_goSet_key _ _ _ _ hp hk
      exact goSet_self_of_all B "command" _ hbc hbca
    · have e : ∀ x : Obj, applyDocker ⟨reg, im, tg, some c, ent⟩ x =
          goSet (goSet (goSet x "image"
              (JSON.str (reg ++ "/" ++ im ++ ":" ++ tg)))
            "command" (JSON.arr (c.map JSON.str)))
            "entrypoint" (JSON.str ent) := by
        intro x
        simp only [applyDocker]
        rw [if_neg he]
      rw [e, e]
      set B := goSet (goSet (goSet svc "image"
          (JSON.str (reg ++ "/" ++ im ++ ":" ++ tg)))
        "command" (JSON.arr (c.map JSON.str)))
        "entrypoint" (JSON.str ent) with hB
      have hbi : hasKey B "image" = true := by
        rw [hB, hasKey_goSet_ne _ _ _ _ (by decide),
          hasKey_goSet_ne _ _ _ _ (by decide), hasKey_goSet_self]
      have hbia : ∀ p ∈ B, p.1 = "image" →
          p.2 = JSON.str (reg ++ "/" ++ im ++ ":" ++ tg) := by
        intro p hp hk
        rw [hB] at hp
        rcases mem_goSet_elim _ _ _ _ hp with h1 | h1
        · rw [h1] at hk
          simp at hk
        · rcases mem_goSet_elim _ _ _ _ h1 with h2 | h2
          · rw [h2] at hk
            simp at hk
          · exact mem_goSet_key _ _ _ _ h2 hk
      rw [goSet_self_of_all B "image" _ hbi hbia]
      have hbc : hasKey B "command" = true := by
        rw [hB, hasKey_goSet_ne _ _ _ _ (by decide), hasKey_goSet_self]
      have hbca : ∀ p ∈ B, p.1 = "command" →
          p.2 = JSON.arr (c.map JSON.str) := by
        intro p hp hk
        rw [hB] at hp
        rcases mem_goSet_elim _ _ _ _ hp with h1 | h1
        · rw [h1] at hk
          simp at hk
        · exact mem_goSet_key _ _ _ _ h1 hk
      rw [goSet_self_of_all B "command" _ hbc hbca]
      have hbe : hasKey B "entrypoint" = true := by
        rw [hB]
        exact hasKey_goSet_self _ _ _
      have hbea : ∀ p ∈ B, p.1 = "entrypoint" → p.2 = JSON.str ent := by
        intro p hp hk
        rw [hB] at hp
        exact mem_goSet_key _ _ _ _ hp hk
      exact goSet_self_of_all B "entrypoint" _ hbe hbea
  | none =>
    by_cases he : ent = ""
    · have e : ∀ x : Obj, applyDocker ⟨reg, im, tg, none, ent⟩ x =
          goSet x "image" (JSON.str (reg ++ "/" ++ im ++ ":" ++ tg)) := by
        intro x
        simp only [applyDocker]
        rw [if_pos he]
      rw [e, e]
      exact goSet_goSet_self _ _ _
    · have e : ∀ x : Obj, applyDocker ⟨reg, im, tg, none, ent⟩ x =
          goSet (goSet x "image" (JSON.str (reg ++ "/" ++ im ++ ":" ++ tg)))
            "entrypoint" (JSON.str ent) := by
        intro x
        simp only [applyDocker]
        rw [if_neg he]
      rw [e, e]
      set B := goSet (goSet svc "image"
          (JSON.str (reg ++ "/" ++ im ++ ":" ++ tg)))
        "entrypoint" (JSON.str ent) with hB
      have hbi : hasKey B "image" = true := by
        rw [hB, hasKey_goSet_ne _ _ _ _ (by decide), hasKey_goSet_self]
      have hbia : ∀ p ∈ B, p.1 = "image" →
          p.2 = JSON.str (reg ++ "/" ++ im ++ ":" ++ tg) := by
        intro p hp hk
        rw [hB] at hp
        rcases mem_goSet_elim _ _ _ _ hp with h1 | h1
        · rw [h1] at hk
          simp at hk
        · exact mem_goSet_key _ _ _ _ h1 hk
      rw [goSet_self_of_all B "image" _ hbi hbia]
      have hbe : hasKey B "entrypoint" = true := by
        rw [hB]
        exact hasKey_goSet_self _ _ _
      have hbea : ∀ p ∈ B, p.1 = "entrypoint" → p.2 = JSON.str ent := by
        intro p hp hk
        rw [hB] at hp
        exact mem_goSet_key _ _ _ _ hp hk
      exact goSet_self_of_all B "entrypoint" _ hbe hbea

theorem stepService_idem (repo : Repo) (a p : String × JSON)
    (h : stepService repo a = some p) : stepService repo p = some p := by
  rcases stepService_some_elim repo a p h with ⟨svc, d, _, hres, hen, hp⟩
  subst hp
  have henA : goGet (applyDocker d (goDelete svc "octocompose")) "enabled" =
      goGet svc "enabled" := by
    rw [goGet_applyDocker_ne _ _ _ (by decide) (by decide) (by decide),
      goGet_goDelete_ne _ _ _ (by decide)]
  have hstep := stepService_enabled_pass repo a.1
    (applyDocker d (goDelete svc "octocompose")) (by rw [henA]; exact hen)
  rw [hstep, hres]
  have hoc : hasKey (applyDocker d (goDelete svc "octocompose"))
      "octocompose" = false := by
    rw [hasKey_applyDocker_ne _ _ _ (by decide) (by decide) (by decide),
      hasKey_goDelete_self]
  show some (a.1, JSON.obj (applyDocker d
    (goDelete (applyDocker d (goDelete svc "octocompose")) "octocompose"))) = _
  rw [goDelete_of_not_hasKey _ _ hoc, applyDocker_idem]

theorem processServices_self (repo : Repo) (l : Obj)
    (h : ∀ kv ∈ l, stepService repo kv = some kv) :
    processServices repo l = GoResult.ok l := by
  induction l with
  | nil => rfl
  | cons a t ih =>
    have ha := h a (List.mem_cons_self a t)
    have hpsa : processService repo a.1 a.2 = GoResult.ok (some a.2) := by
      rcases stepService_some_elim repo a a ha with ⟨svc, d, ha2, hres, hen, hp⟩
      have h1 : processService repo a.1 a.2 =
          GoResult.ok (keepService repo a.1 svc) := by
        rw [ha2]
        rcases hen with hx | hx <;> simp [processService, hx]
      have h2 : keepService repo a.1 svc =
          some (JSON.obj (applyDocker d (goDelete svc "octocompose"))) := by
        rw [keepService_eq, hres]
      rw [h1, h2, show JSON.obj (applyDocker d (goDelete svc "octocompose")) =
        a.2 from (congrArg Prod.snd hp).symm]
    rw [show a = (a.1, a.2) from rfl]
    simp only [processServices, hpsa,
      ih (fun kv hkv => h kv (List.mem_cons_of_mem _ hkv))]

/-! ## Claim-level helpers -/

theorem output_services_lookup (repo : Repo) (data out svcs : Obj)
    (name : String) (v : JSON)
    (hok : prepareConfig repo data = GoResult.ok out)
    (hsv : goGet data "services" = JSON.obj svcs)
    (hnd : (svcs.map Prod.fst).Nodup)
    (hm : (name, v) ∈ svcs) :
    svcWellTyped v = true ∧
    goGet out "services" = JSON.obj (svcs.filterMap (stepService repo)) ∧
    hasKey (svcs.filterMap (stepService repo)) name =
      (stepService repo (name, v)).isSome ∧
    goGet (svcs.filterMap (stepService repo)) name =
      (match stepService repo (name, v) with
       | some p => p.2
       | none => JSON.null) := by
  rcases prepareConfig_ok_elim repo data out hok with ⟨svcs2, hsv2, hwt, hout⟩
  rw [hsv] at hsv2
  injection hsv2 with he
  subst he
  refine ⟨hwt (name, v) hm, ?_, ?_, ?_⟩
  · rw [hout, goGet_goSet_self]
  · exact (filterMap_step_lookup repo svcs name v hnd hm).1
  · exact (filterMap_step_lookup repo svcs name v hnd hm).2

theorem prepareConfig_err_of_no_services (repo : Repo) (data : Obj)
    (h : ∀ svcs, goGet data "services" ≠ JSON.obj svcs) :
    prepareConfig repo data = GoResult.err "services not found" := by
  simp only [prepareConfig]
  rw [goGet_stripTop_services]
  cases hsv : goGet data "services" with
  | obj svcs => exact absurd hsv (h svcs)
  | null => rfl
  | bool b => rfl
  | num n => rfl
  | str s => rfl
  | arr xs => rfl

theorem beforeConfig_eq_of_name (repo : Repo) (cmdo : Option (List String))
    (data : Obj) (s : String) (hn : goGet data "name" = JSON.str s) :
    beforeConfig repo cmdo data =
      (match prepareConfig repo data with
       | GoResult.ok doc =>
         GoResult.ok ⟨doc, cmdo.getD defaultComposeCommand, s⟩
       | GoResult.err m => GoResult.err m
       | GoResult.crash m => GoResult.crash m) := by
  simp only [beforeConfig]
  rw [hn]

theorem firstIndexOf_not_mem (sep : String) (l : List String) (h : sep ∉ l) :
    firstIndexOf sep l = none := by
  induction l with
  | nil => rfl
  | cons a t ih =>
    rw [List.mem_cons, not_or] at h
    have ha : a ≠ sep := fun hc => h.1 hc.symm
    simp [firstIndexOf, ha, ih h.2]

theorem firstIndexOf_append_sep (pre post : List String) (h : "--" ∉ pre) :
    firstIndexOf "--" (pre ++ "--" :: post) = some pre.length := by
  induction pre with
  | nil => rfl
  | cons a t ih =>
    rw [List.mem_cons, not_or] at h
    have ha : a ≠ "--" := fun hc => h.1 hc.symm
    simp [firstIndexOf, ha, ih h.2]

/-! ## The claims -/

/-- Claim C3: for every service entry of the `services` mapping, an
explicit `enabled: false` makes it absent from the output services (no
matter what the registry holds), while `enabled: true` or an absent
`enabled` never drops it on account of the `enabled` field: in that case
it is kept exactly when the registry resolves it to a Docker reference. -/
theorem enabled_gate (repo : Repo) (data out svcs svc outSvcs : Obj)
    (name : String)
    (hok : prepareConfig repo data = GoResult.ok out)
    (hsv : goGet data "services" = JSON.obj svcs)
    (hnd : (svcs.map Prod.fst).Nodup)
    (hm : (name, JSON.obj svc) ∈ svcs)
    (hout : goGet out "services" = JSON.obj outSvcs) :
    (goGet svc "enabled" = JSON.bool false → hasKey outSvcs name = false) ∧
    ((goGet svc "enabled" = JSON.bool true ∨
        goGet svc "enabled" = JSON.null) →
      hasKey outSvcs name = (resolveDocker repo name).isSome) := by
  rcases output_services_lookup repo data out svcs name (JSON.obj svc)
    hok hsv hnd hm with ⟨_, hgs, hhk, _⟩
  rw [hgs] at hout
  injection hout with he
  subst he
  constructor
  · intro hfalse
    rw [hhk, stepService_disabled repo name svc hfalse]
    rfl
  · intro hpass
    rw [hhk, stepService_enabled_pass repo name svc hpass.symm]
    cases hrd : resolveDocker repo name <;> rfl

/-- Claim C4: a service present in `services` but absent from the
registry, or present there with a null Docker reference, is absent from
the output services. -/
theorem unregistered_service_dropped (repo : Repo)
    (data out svcs outSvcs : Obj) (name : String) (v : JSON)
    (hok : prepareConfig repo data = GoResult.ok out)
    (hsv : goGet data "services" = JSON.obj svcs)
    (hnd : (svcs.map Prod.fst).Nodup)
    (hm : (name, v) ∈ svcs)
    (hreg : repo.lookup name = none ∨
      ∃ sr, repo.lookup name = some sr ∧ sr.docker = none)
    (hout : goGet out "services" = JSON.obj outSvcs) :
    hasKey outSvcs name = false := by
  have hrd : resolveDocker repo name = none := by
    rcases hreg with h | ⟨sr, h1, h2⟩
    · simp [resolveDocker, h]
    · simp [resolveDocker, h1, h2]
  rcases output_services_lookup repo data out svcs name v
    hok hsv hnd hm with ⟨_, hgs, hhk, _⟩
  rw [hgs] at hout
  injection hout with he
  subst he
  rw [hhk]
  cases hstep : stepService repo (name, v) with
  | none => rfl
  | some p =>
    rcases stepService_some_elim repo (name, v) p hstep with
      ⟨svc, d, _, hrd2, _, _⟩
    rw [hrd] at hrd2
    cases hrd2

/-- Claim C5: a service kept in the output via a registry entry with a
Docker reference gets `image` set to exactly the concatenation
`<registry>/<image>:<tag>` (single slash, single colon, no trimming). -/
theorem image_field_exact (repo : Repo) (data out svcs svc outSvcs : Obj)
    (name : String) (sr : ServiceRepo) (d : DockerRef)
    (hok : prepareConfig repo data = GoResult.ok out)
    (hsv : goGet data "services" = JSON.obj svcs)
    (hnd : (svcs.map Prod.fst).Nodup)
    (hm : (name, JSON.obj svc) ∈ svcs)
    (hen : goGet svc "enabled" = JSON.bool true ∨
      goGet svc "enabled" = JSON.null)
    (hlk : repo.lookup name = some sr)
    (hd : sr.docker = some d)
    (hout : goGet out "services" = JSON.obj outSvcs) :
    ∃ osvc, goGet outSvcs name = JSON.obj osvc ∧
      goGet osvc "image" =
        JSON.str (d.registry ++ "/" ++ d.image ++ ":" ++ d.tag) := by
  have hrd : resolveDocker repo name = some d := by
    simp [resolveDocker, hlk, hd]
  rcases output_services_lookup repo data out svcs name (JSON.obj svc)
    hok hsv hnd hm with ⟨_, hgs, _, hgv⟩
  rw [hgs] at hout
  injection hout with he
  subst he
  rw [stepService_enabled_pass repo name svc hen.symm, hrd] at hgv
  exact ⟨applyDocker d (goDelete svc "octocompose"), hgv,
    goGet_applyDocker_image d _⟩

/-- Claim C1 (amended): for a kept service resolved via a registry entry
with a Docker reference, `command` is overwritten exactly when the
registry command is present (non-nil) — including when it is a present
empty list — and `entrypoint` is overwritten exactly when the registry
entrypoint is a non-empty string; otherwise the original values are
preserved. -/
theorem command_entrypoint_overwrite_gate (repo : Repo)
    (data out svcs svc outSvcs : Obj) (name : String)
    (sr : ServiceRepo) (d : DockerRef)
    (hok : prepareConfig repo data = GoResult.ok out)
    (hsv : goGet data "services" = JSON.obj svcs)
    (hnd : (svcs.map Prod.fst).Nodup)
    (hm : (name, JSON.obj svc) ∈ svcs)
    (hen : goGet svc "enabled" = JSON.bool true ∨
      goGet svc "enabled" = JSON.null)
    (hlk : repo.lookup name = some sr)
    (hd : sr.docker = some d)
    (hout : goGet out "services" = JSON.obj outSvcs) :
    ∃ osvc, goGet outSvcs name = JSON.obj osvc ∧
      goGet osvc "command" =
        (match d.command with
         | some c => JSON.arr (c.map JSON.str)
         | none => goGet svc "command") ∧
      goGet osvc "entrypoint" =
        (if d.entrypoint = "" then goGet svc "entrypoint"
         else JSON.str d.entrypoint) := by
  have hrd : resolveDocker repo name = some d := by
    simp [resolveDocker, hlk, hd]
  rcases output_services_lookup repo data out svcs name (JSON.obj svc)
    hok hsv hnd hm with ⟨_, hgs, _, hgv⟩
  rw [hgs] at hout
  injection hout with he
  subst he
  rw [stepService_enabled_pass repo name svc hen.symm, hrd] at hgv
  refine ⟨applyDocker d (goDelete svc "octocompose"), hgv, ?_, ?_⟩
  · rw [goGet_applyDocker_command, goGet_goDelete_ne _ _ _ (by decide)]
  · rw [goGet_applyDocker_entrypoint, goGet_goDelete_ne _ _ _ (by decide)]

/-- Claim C6: a successful transform's output has no top-level `configs`,
`octoctl` or `repos` key, and every kept service is a mapping without an
`octocompose` key. -/
theorem internal_keys_never_emitted (repo : Repo) (data out : Obj)
    (hok : prepareConfig repo data = GoResult.ok out) :
    hasKey out "configs" = false ∧ hasKey out "octoctl" = false ∧
    hasKey out "repos" = false ∧
    (∀ outSvcs, goGet out "services" = JSON.obj outSvcs →
      ∀ kv ∈ outSvcs, ∃ osvc, kv.2 = JSON.obj osvc ∧
        hasKey osvc "octocompose" = false) := by
  rcases prepareConfig_ok_elim repo data out hok with ⟨svcs, _, _, hout⟩
  refine ⟨?_, ?_, ?_, ?_⟩
  · rw [hout, hasKey_goSet_ne _ _ _ _ (by decide), hasKey_stripTop_configs]
  · rw [hout, hasKey_goSet_ne _ _ _ _ (by decide), hasKey_stripTop_octoctl]
  · rw [hout, hasKey_goSet_ne _ _ _ _ (by decide), hasKey_stripTop_repos]
  · intro outSvcs hgs kv hkv
    rw [hout, goGet_goSet_self] at hgs
    injection hgs with he
    subst he
    rcases List.mem_filterMap.mp hkv with ⟨a, _, hstep⟩
    rcases stepService_some_elim repo a kv hstep with ⟨svc, d, _, _, _, hkv2⟩
    refine ⟨applyDocker d (goDelete svc "octocompose"), ?_, ?_⟩
    · rw [hkv2]
    · rw [hasKey_applyDocker_ne _ _ _ (by decide) (by decide) (by decide),
        hasKey_goDelete_self]

/-- Claim C9: idempotence of the transform — feeding a successful output
back through the transform, with the same registry, reproduces the output
exactly (so serializing deterministically yields byte-identical
documents). -/
theorem transform_idem (repo : Repo) (data out : Obj)
    (hok : prepareConfig repo data = GoResult.ok out) :
    prepareConfig repo out = GoResult.ok out := by
  rcases prepareConfig_ok_elim repo data out hok with ⟨svcs, hsv, hwt, hout⟩
  have hcfg : hasKey out "configs" = false := by
    rw [hout, hasKey_goSet_ne _ _ _ _ (by decide), hasKey_stripTop_configs]
  have hoct : hasKey out "octoctl" = false := by
    rw [hout, hasKey_goSet_ne _ _ _ _ (by decide), hasKey_stripTop_octoctl]
  have hrep : hasKey out "repos" = false := by
    rw [hout, hasKey_goSet_ne _ _ _ _ (by decide), hasKey_stripTop_repos]
  have hstrip : stripTop out = out := by
    unfold stripTop
    rw [goDelete_of_not_hasKey out "configs" hcfg,
      goDelete_of_not_hasKey out "octoctl" hoct,
      goDelete_of_not_hasKey out "repos" hrep]
  have hgets : goGet out "services" =
      JSON.obj (svcs.filterMap (stepService repo)) := by
    rw [hout, goGet_goSet_self]
  have hself : ∀ kv ∈ svcs.filterMap (stepService repo),
      stepService repo kv = some kv := by
    intro kv hkv
    rcases List.mem_filterMap.mp hkv with ⟨a, _, hstep⟩
    exact stepService_idem repo a kv hstep
  rw [prepareConfig_eq_of_services repo out _ hgets,
    processServices_self repo _ hself]
  show GoResult.ok (goSet (stripTop out) "services"
    (JSON.obj (svcs.filterMap (stepService repo)))) = GoResult.ok out
  rw [hstrip]
  conv_lhs => rw [hout]
  rw [goSet_goSet_self, ← hout]

/-- Witness for C9: the spec's demo scenario — transforming the demo
output again reproduces it. -/
theorem transform_idem_witness :
    prepareConfig demoRepo demoOut = GoResult.ok demoOut :=
  transform_idem demoRepo demoData demoOut rfl

/-- Claim C2 counterexample: on the input `{"services": {}}` — project
identifier absent — the pipeline panics on the unchecked
`configData["name"].(string)` assertion instead of returning a
MissingField-style error, refuting the claim that a missing project
identifier yields an error (not a crash). -/
theorem missing_name_crashes :
    (beforeConfig ⟨[]⟩ none [("services", JSON.obj [])]).isCrash = true ∧
    (beforeConfig ⟨[]⟩ none [("services", JSON.obj [])]).isErr = false :=
  ⟨rfl, rfl⟩

/-- Claim C2 (amended): when the project identifier is present as a string
and every service entry is well-typed, the pipeline returns an error
exactly when `services` is absent or not a mapping; when the project
identifier is absent (Go `nil`), the pipeline panics instead of returning
an error. -/
theorem error_iff_services_bad :
    (∀ (repo : Repo) (cmdo : Option (List String)) (data : Obj) (s : String),
      goGet data "name" = JSON.str s →
      (∀ svcs, goGet data "services" = JSON.obj svcs →
        ∀ kv ∈ svcs, svcWellTyped kv.2 = true) →
      ((beforeConfig repo cmdo data).isErr = true ↔
        ∀ svcs, goGet data "services" ≠ JSON.obj svcs)) ∧
    (∀ (repo : Repo) (cmdo : Option (List String)) (data : Obj),
      goGet data "name" = JSON.null →
      (beforeConfig repo cmdo data).isCrash = true) := by
  constructor
  · intro repo cmdo data s hn hwt
    rw [beforeConfig_eq_of_name repo cmdo data s hn]
    cases hsv : goGet data "services" with
    | obj svcs =>
      rw [prepareConfig_eq_of_services repo data svcs hsv,
        processServices_ok_of_wellTyped repo svcs (hwt svcs hsv)]
      constructor
      · intro hc
        exact absurd hc (by simp [GoResult.isErr])
      · intro hall
        exact absurd rfl (hall svcs)
    | null =>
      rw [prepareConfig_err_of_no_services repo data
        (fun svcs h => by rw [hsv] at h; exact JSON.noConfusion h)]
      exact ⟨fun _ svcs h => JSON.noConfusion h, fun _ => rfl⟩
    | bool b =>
      rw [prepareConfig_err_of_no_services repo data
        (fun svcs h => by rw [hsv] at h; exact JSON.noConfusion h)]
      exact ⟨fun _ svcs h => JSON.noConfusion h, fun _ => rfl⟩
    | num n =>
      rw [prepareConfig_err_of_no_services repo data
        (fun svcs h => by rw [hsv] at h; exact JSON.noConfusion h)]
      exact ⟨fun _ svcs h => JSON.noConfusion h, fun _ => rfl⟩
    | str s2 =>
      rw [prepareConfig_err_of_no_services repo data
        (fun svcs h => by rw [hsv] at h; exact JSON.noConfusion h)]
      exact ⟨fun _ svcs h => JSON.noConfusion h, fun _ => rfl⟩
    | arr xs =>
      rw [prepareConfig_err_of_no_services repo data
        (fun svcs h => by rw [hsv] at h; exact JSON.noConfusion h)]
      exact ⟨fun _ svcs h => JSON.noConfusion h, fun _ => rfl⟩
  · intro repo cmdo data hn
    simp only [beforeConfig]
    rw [hn]
    rfl

/-- Witness for C2's amended theorem: a configuration with a name but no
services errors (both directions of the iff hold there), and one with
services but no name crashes. -/
theorem error_iff_services_bad_witness :
    ((beforeConfig ⟨[]⟩ none [("name", JSON.str "x")]).isErr = true ↔
      ∀ svcs, goGet [("name", JSON.str "x")] "services" ≠ JSON.obj svcs) ∧
    (beforeConfig ⟨[]⟩ none [("services", JSON.obj [])]).isCrash = true :=
  ⟨error_iff_services_bad.1 ⟨[]⟩ none _ "x" rfl
      (fun _ h => JSON.noConfusion h),
    error_iff_services_bad.2 ⟨[]⟩ none _ rfl⟩

/-- Claim C7 counterexample: with no `--` separator, the `compose`
sub-command's extra arguments are `["compose"]`, not the empty list the
claim states — the dispatched arguments gain a trailing `"compose"`. -/
theorem compose_no_sep_not_empty :
    composeExtraArgs [] = ["compose"] ∧
    composeDispatch ["docker", "compose"] "/tmp/c.yaml" [] =
      ["docker", "compose", "-f", "/tmp/c.yaml", "compose"] ∧
    (["compose"] : List String) ≠ [] := by
  refine ⟨rfl, rfl, ?_⟩
  intro h
  cases h

/-- Claim C7 (amended): the `compose` sub-command appends, after
`commandVector ++ ["-f", composeFilePath]`, exactly the invocation
arguments that follow the first literal `--` when one is present, and
`["compose"]` (not the empty list) when no `--` is present. -/
theorem compose_extra_args_spec :
    (∀ (cv : List String) (p : String) (pre post : List String),
      "--" ∉ pre →
      composeDispatch cv p (pre ++ "--" :: post) =
        cv ++ ["-f", p] ++ post) ∧
    (∀ (cv : List String) (p : String) (argv : List String), "--" ∉ argv →
      composeDispatch cv p argv = cv ++ ["-f", p] ++ ["compose"]) := by
  constructor
  · intro cv p pre post h
    have hdrop : (pre ++ "--" :: post).drop (pre.length + 1) = post := by
      rw [show pre ++ "--" :: post = (pre ++ ["--"]) ++ post by simp,
        show pre.length + 1 = (pre ++ ["--"]).length by simp]
      exact List.drop_left _ _
    unfold composeDispatch composeExtraArgs
    rw [firstIndexOf_append_sep pre post h]
    show runComposeArgs cv p ((pre ++ "--" :: post).drop (pre.length + 1)) = _
    rw [hdrop]
    simp [runComposeArgs, List.append_assoc]
  · intro cv p argv h
    unfold composeDispatch composeExtraArgs
    rw [firstIndexOf_not_mem "--" argv h]
    simp [runComposeArgs, List.append_assoc]

/-- Witness for C7's amended theorem: `["ps", "--", "-a"]` keeps only
`["-a"]`, and `["logs"]` (no separator) yields `["compose"]`. -/
theorem compose_extra_args_witness :
    composeDispatch ["docker", "compose"] "/c.yaml" ["ps", "--", "-a"] =
      ["docker", "compose", "-f", "/c.yaml", "-a"] ∧
    composeDispatch ["docker", "compose"] "/c.yaml" ["logs"] =
      ["docker", "compose", "-f", "/c.yaml", "compose"] :=
  ⟨compose_extra_args_spec.1 ["docker", "compose"] "/c.yaml"
      ["ps"] ["-a"] (by decide),
    compose_extra_args_spec.2 ["docker", "compose"] "/c.yaml"
      ["logs"] (by decide)⟩

/-- Claim C8: the dispatcher's final argument list is exactly
`commandVector ++ ["-f", composeFilePath] ++ subArgs`; in particular, for
`start` with the dry-run flag the dispatched arguments end with
`up -d --dry-run`. -/
theorem dispatch_args_exact :
    (∀ (cv : List String) (p : String) (sub : List String),
      runComposeArgs cv p sub = cv ++ ["-f", p] ++ sub) ∧
    (∀ (cv : List String) (p : String),
      runComposeArgs cv p (startArgs true) =
        (cv ++ ["-f", p]) ++ ["up", "-d", "--dry-run"]) := by
  constructor
  · intro cv p sub
    simp [runComposeArgs, List.append_assoc]
  · intro cv p
    simp [runComposeArgs, startArgs]

/-- Claim C10 (amended): with `services` a mapping, the transform panics
exactly when some service value is not a mapping or carries an `enabled`
value that is neither null nor a boolean.  A JSON-null `enabled` — while
present and non-boolean — does not panic, because Go's `!= nil` guard
treats it like an absent field; so totality needs every service to be a
mapping and every present `enabled` to be null or boolean. -/
theorem crash_characterization (repo : Repo) (data svcs : Obj)
    (hsv : goGet data "services" = JSON.obj svcs) :
    (prepareConfig repo data).isCrash = true ↔
      ¬ ∀ kv ∈ svcs, svcWellTyped kv.2 = true := by
  rw [prepareConfig_eq_of_services repo data svcs hsv]
  constructor
  · intro hc hall
    rw [processServices_ok_of_wellTyped repo svcs hall] at hc
    exact Bool.noConfusion hc
  · intro hnall
    have hex : ∃ kv ∈ svcs, svcWellTyped kv.2 = false := by
      push_neg at hnall
      rcases hnall with ⟨kv, hkv, hw⟩
      exact ⟨kv, hkv, by revert hw; cases svcWellTyped kv.2 <;> simp⟩
    have hcr := processServices_crash_of_illTyped repo svcs hex
    cases hres : processServices repo svcs with
    | ok out =>
      rw [hres] at hcr
      exact Bool.noConfusion hcr
    | err m =>
      rw [hres] at hcr
      exact Bool.noConfusion hcr
    | crash m => rfl

/-- Witness for C10's amended theorem: a non-map service value makes the
transform panic. -/
theorem crash_characterization_witness :
    (prepareConfig ⟨[]⟩ [("services", JSON.obj
      [("web", JSON.str "x")])]).isCrash = true :=
  (crash_characterization ⟨[]⟩
      [("services", JSON.obj [("web", JSON.str "x")])]
      [("web", JSON.str "x")] rfl).mpr
    (fun hall => Bool.noConfusion
      (hall ("web", JSON.str "x") (List.mem_singleton.mpr rfl)))

/-- Claim C10 counterexample: an `enabled` key holding JSON null is
present and non-boolean, yet the transform does not panic — Go's
`svc["enabled"] != nil` guard treats JSON null like an absent field, so
the bool assertion is never reached and the service is kept. -/
theorem null_enabled_no_crash :
    hasKey [("enabled", JSON.null)] "enabled" = true ∧
    (∀ b, goGet [("enabled", JSON.null)] "enabled" ≠ JSON.bool b) ∧
    prepareConfig demoRepo nullEnabledData = GoResult.ok
      [("services", JSON.obj [("web", JSON.obj
        [("enabled", JSON.null), ("image", JSON.str "reg.io/app:1.0")])])] := by
  refine ⟨rfl, ?_, rfl⟩
  intro b h
  cases h

/-- Claim C1 counterexample: the registry entry for `web` carries a
present-but-empty command list (`some []`); the input service's `command`
is the string `"orig"`, and the transform overwrites it with the empty
list — an empty (but present) registry command does overwrite, contrary
to the claim that `command` is overwritten only when non-empty. -/
theorem empty_command_overwrites :
    (∃ d, resolveDocker cexRepo "web" = some d ∧
      d.command = some ([] : List String)) ∧
    goGet [("command", JSON.str "orig")] "command" = JSON.str "orig" ∧
    prepareConfig cexRepo cexData = GoResult.ok
      [("services", JSON.obj [("web", JSON.obj
        [("command", JSON.arr []), ("image", JSON.str "r/i:t")])])] ∧
    JSON.arr [] ≠ JSON.str "orig" := by
  refine ⟨⟨⟨"r", "i", "t", some [], ""⟩, rfl, rfl⟩, rfl, rfl, ?_⟩
  intro h
  cases h

/-- Witness for C1's amended theorem, at the demo scenario (registry
command nil, entrypoint empty): both fields keep their original values. -/
theorem command_entrypoint_witness :
    ∃ osvc, goGet [("web", JSON.obj [("enabled", JSON.bool true),
        ("image", JSON.str "reg.io/app:1.0")])] "web" = JSON.obj osvc ∧
      goGet osvc "command" =
        (match (none : Option (List String)) with
         | some c => JSON.arr (c.map JSON.str)
         | none => goGet [("enabled", JSON.bool true)] "command") ∧
      goGet osvc "entrypoint" =
        (if ("" : String) = "" then
          goGet [("enabled", JSON.bool true)] "entrypoint"
         else JSON.str "") :=
  command_entrypoint_overwrite_gate demoRepo demoData demoOut
    [("web", JSON.obj [("enabled", JSON.bool true)])]
    [("enabled", JSON.bool true)]
    [("web", JSON.obj [("enabled", JSON.bool true),
      ("image", JSON.str "reg.io/app:1.0")])]
    "web" ⟨some ⟨"reg.io", "app", "1.0", none, ""⟩⟩
    ⟨"reg.io", "app", "1.0", none, ""⟩
    rfl rfl (by decide) (List.mem_singleton.mpr rfl) (Or.inl rfl) rfl rfl rfl

/-- Witness for C3: an `enabled: false` service is absent from the output
even with a matching registry entry structure, and the demo's enabled
service is kept exactly because its registry entry resolves. -/
theorem enabled_gate_witness :
    hasKey ([] : Obj) "web" = false ∧
    hasKey [("web", JSON.obj [("enabled", JSON.bool true),
      ("image", JSON.str "reg.io/app:1.0")])] "web" =
      (resolveDocker demoRepo "web").isSome :=
  ⟨(enabled_gate demoRepo [("services", JSON.obj [("web", JSON.obj
        [("enabled", JSON.bool false)])])] [("services", JSON.obj [])]
      [("web", JSON.obj [("enabled", JSON.bool false)])]
      [("enabled", JSON.bool false)] [] "web"
      rfl rfl (by decide) (List.mem_singleton.mpr rfl) rfl).1 rfl,
    (enabled_gate demoRepo demoData demoOut
      [("web", JSON.obj [("enabled", JSON.bool true)])]
      [("enabled", JSON.bool true)]
      [("web", JSON.obj [("enabled", JSON.bool true),
        ("image", JSON.str "reg.io/app:1.0")])] "web"
      rfl rfl (by decide) (List.mem_singleton.mpr rfl) rfl).2 (Or.inl rfl)⟩

/-- Witness for C4: a service with no registry entry is dropped. -/
theorem unregistered_dropped_witness :
    hasKey ([] : Obj) "ghost" = false :=
  unregistered_service_dropped ⟨[]⟩
    [("services", JSON.obj [("ghost", JSON.obj [])])]
    [("services", JSON.obj [])]
    [("ghost", JSON.obj [])] [] "ghost" (JSON.obj [])
    rfl rfl (by decide) (List.mem_singleton.mpr rfl) (Or.inl rfl) rfl

/-- Witness for C5: the spec scenario — service `web` with registry entry
`reg.io`/`app`:`1.0` gets `image: "reg.io/app:1.0"`. -/
theorem image_field_exact_witness :
    ∃ osvc, goGet [("web", JSON.obj [("enabled", JSON.bool true),
        ("image", JSON.str "reg.io/app:1.0")])] "web" = JSON.obj osvc ∧
      goGet osvc "image" =
        JSON.str ("reg.io" ++ "/" ++ "app" ++ ":" ++ "1.0") :=
  image_field_exact demoRepo demoData demoOut
    [("web", JSON.obj [("enabled", JSON.bool true)])]
    [("enabled", JSON.bool true)]
    [("web", JSON.obj [("enabled", JSON.bool true),
      ("image", JSON.str "reg.io/app:1.0")])]
    "web" ⟨some ⟨"reg.io", "app", "1.0", none, ""⟩⟩
    ⟨"reg.io", "app", "1.0", none, ""⟩
    rfl rfl (by decide) (List.mem_singleton.mpr rfl) (Or.inl rfl) rfl rfl rfl

/-- Witness for C6: the demo input contains a `repos` key; the output has
none of the internal keys and its service has no `octocompose` key. -/
theorem internal_keys_witness :
    hasKey demoOut "configs" = false ∧ hasKey demoOut "octoctl" = false ∧
    hasKey demoOut "repos" = false ∧
    (∀ outSvcs, goGet demoOut "services" = JSON.obj outSvcs →
      ∀ kv ∈ outSvcs, ∃ osvc, kv.2 = JSON.obj osvc ∧
        hasKey osvc "octocompose" = false) :=
  internal_keys_never_emitted demoRepo demoData demoOut rfl

end OperatorDocker
